import Mathlib

/-!
Verification of the spectral-subtraction noise-reduction engine of
`src/backend/python/scripts/noisereduction.py`.

Shallow embedding conventions:
* audio samples and all floating-point signal values are modelled as exact
  real numbers (`ℝ`), spectra as complex numbers (`ℂ`);
* Python `int` values (lengths, indices, FFT sizes) are `ℕ`, except where
  Python arithmetic can go negative (`len(audio) - n_fft`), where `ℤ` with
  Python's floor division (`Int.fdiv`) is used;
* the float-valued configuration scalar `noise_sample_duration`, which feeds
  integer arithmetic (`int(noise_sample_duration * sample_rate)`), is
  modelled as `ℚ` so that the resulting integer lengths are computable;
  negative durations (which would trigger Python's negative-index slicing)
  are outside the model: `noiseSampleLength` truncates them to `0`, and
  `denoiseRunsOk` rejects such runs;
* `numpy` arrays are `List ℝ` (1-D) / `List (List ℝ)` (2-D);
* exceptions of `denoise_with_fft` are captured by the decidable predicate
  `denoiseRunsOk` (the function itself is modelled total); exceptions of
  `run` are part of the `runModel` trace model.
-/

/-- The literal `1e-10` used by the source as a division/flooring epsilon
(lines 134, 167, 196). -/
noncomputable def epsDiv : ℝ := 1 / 10 ^ 10

/-- Python `int(q)` on a float value: truncation toward zero. -/
def ratTrunc (q : ℚ) : ℤ := if q < 0 then -⌊-q⌋ else ⌊q⌋

/-- Python `range(0, stop, step)` for a possibly negative `stop` and a
positive `step`: the list `[0, step, 2*step, ...)` of values `< stop`.
(`step = 0` raises in Python; the model returns `[]` there, and such runs
are rejected by `denoiseRunsOk`.) -/
def pyRangeNat (stop : ℤ) (step : ℕ) : List ℕ :=
  (List.range ((stop.toNat + step - 1) / step)).map (· * step)

/-- Lines 86-87: `noise_sample_length = int(noise_sample_duration * sample_rate)`
capped by `len(audio) // 4`. -/
def noiseSampleLength (nsd : ℚ) (sr L : ℕ) : ℕ :=
  min (ratTrunc (nsd * sr)).toNat (L / 4)

/-- Lines 294-298 (in `run`): if the requested `n_fft` exceeds the audio
length, replace it by `max(64, 2 ** int(np.log2(audio_length)))`. -/
def runAdaptNfft (nfft L : ℕ) : ℕ :=
  if nfft > L then max 64 (2 ^ Nat.log2 L) else nfft

/-- Lines 89-92 (in `denoise_with_fft`): if the noise sample is shorter than
`n_fft`, replace `n_fft` by `max(64, 2 ** int(np.log2(noise_sample_length)))`. -/
def denoiseAdaptNfft (nsl nfft : ℕ) : ℕ :=
  if nsl < nfft then max 64 (2 ^ Nat.log2 nsl) else nfft

/-- The `n_fft` value actually used inside `denoise_with_fft` for a whole
`run`: the run-level adaptation of lines 294-298 followed by the
denoiser-level adaptation of lines 89-92 applied to the noise-sample
length of lines 86-87. -/
def effectiveNfft (L sr : ℕ) (nsd : ℚ) (nfft : ℕ) : ℕ :=
  denoiseAdaptNfft (noiseSampleLength nsd sr L) (runAdaptNfft nfft L)

/-- Decidable model of "`denoise_with_fft` raises no exception": the body
raises iff (a) `noise_sample_length = 0` while the adaptation branch is
taken (`int(np.log2(0))` raises `OverflowError`), or (b) the effective
`n_fft` is `0` (`np.fft.rfft(..., n=0)` raises), or (c) the effective hop
is `0` (`range` with zero step raises), or (d)
`(len(audio) - n_fft) // hop_length + 1` is negative (`np.zeros` with a
negative dimension raises). An empty input returns before any of this. -/
def denoiseRunsOk (L sr : ℕ) (nsd : ℚ) (nfft : ℕ) (hop? : Option ℕ) : Bool :=
  if L = 0 then true else
  let nsl := noiseSampleLength nsd sr L
  if nsl = 0 ∧ nsl < nfft then false else
  let effN := denoiseAdaptNfft nsl nfft
  let effHop := hop?.getD (effN / 4)
  decide (effN ≠ 0 ∧ effHop ≠ 0 ∧ 0 ≤ ((L : ℤ) - effN).fdiv effHop + 1)

/-- `np.hanning(M)`: the Hann window, `[]` for `M = 0`, `[1]` for `M = 1`,
and `0.5 - 0.5*cos(2πn/(M-1))` for `n = 0, ..., M-1` otherwise. -/
noncomputable def hanning (M : ℕ) : List ℝ :=
  if M = 0 then [] else if M = 1 then [1] else
  (List.range M).map (fun (n : ℕ) =>
    1 / 2 - 1 / 2 * Real.cos (2 * Real.pi * (n : ℝ) / ((M : ℝ) - 1)))

/-- `np.fft.rfft(x, n)`: the first `n/2 + 1` discrete-Fourier coefficients
of `x` truncated / zero-padded to `n` samples. -/
noncomputable def rfft (x : List ℝ) (n : ℕ) : List ℂ :=
  (List.range (n / 2 + 1)).map (fun (k : ℕ) =>
    ∑ m ∈ Finset.range n,
      (x.getD m 0 : ℂ) * Complex.exp (-(2 * (Real.pi : ℂ) * Complex.I * (m : ℂ) * (k : ℂ)) / (n : ℂ)))

/-- Hermitian extension of a half spectrum to `n` bins, as `np.fft.irfft`
interprets its input. -/
noncomputable def hermExt (X : List ℂ) (n k : ℕ) : ℂ :=
  if k ≤ n / 2 then X.getD k 0 else star (X.getD (n - k) 0)

/-- `np.fft.irfft(X, n)`: real inverse FFT of the Hermitian-extended half
spectrum `X`, returning `n` time-domain samples. -/
noncomputable def irfft (X : List ℂ) (n : ℕ) : List ℝ :=
  (List.range n).map (fun (m : ℕ) =>
    ((1 / (n : ℂ)) * ∑ k ∈ Finset.range n,
      hermExt X n k * Complex.exp (2 * (Real.pi : ℂ) * Complex.I * (m : ℂ) * (k : ℂ) / (n : ℂ))).re)

/-- Line 134 / line 167 flooring of a noise-profile entry at `1e-10`. -/
noncomputable def floorAtEps (v : ℝ) : ℝ := max v epsDiv

/-- Lines 167-168, one frequency bin: the spectral-subtraction gain
`max(beta, 1 - alpha * noiseP / max(frameMag, 1e-10))`. -/
noncomputable def gainAt (alpha beta noiseP frameMag : ℝ) : ℝ :=
  max beta (1 - alpha * (noiseP / max frameMag epsDiv))

/-- Lines 167-168, vectorized over the frequency bins: the per-bin gains of
one frame, from the (already floored) noise profile and the frame
magnitudes. -/
noncomputable def gains (alpha beta : ℝ) (profile mags : List ℝ) : List ℝ :=
  List.zipWith (gainAt alpha beta) profile mags

/-- Lines 171-172, one frequency bin: the denoised spectrum value
`(|z| * gain) * exp(i * angle(z))` built from magnitude `|z|` and phase
`angle(z)` of the bin value `z`. -/
noncomputable def subtractBin (z : ℂ) (g : ℝ) : ℂ :=
  ((Complex.abs z * g : ℝ) : ℂ) * Complex.exp ((z.arg : ℂ) * Complex.I)

/-- Lines 160-172 minus the FFT itself: given the floored noise profile and
one frame's spectrum, compute magnitudes and phases, the per-bin gains, and
the denoised spectrum column. -/
noncomputable def processFrame (profile : List ℝ) (alpha beta : ℝ)
    (frameFFT : List ℂ) : List ℂ :=
  List.zipWith subtractBin frameFFT
    (gains alpha beta profile (frameFFT.map Complex.abs))

/-- Line 106 loop bounds: `range(0, len(noise_reference) - n_fft, hop_length)`,
the window start offsets actually visited by the noise-estimation loop. -/
def noiseWindowStarts (refLen nfft hop : ℕ) : List ℕ :=
  pyRangeNat ((refLen : ℤ) - nfft) hop

/-- Lines 107-114, one window of the noise-estimation loop: take `n_fft`
samples of the noise reference at offset `i`, apply a Hann window of the
slice's length, and return the magnitudes of the real FFT. -/
noncomputable def windowMagnitude (noiseRef : List ℝ) (nfft i : ℕ) : List ℝ :=
  let w := (noiseRef.drop i).take nfft
  ((rfft (List.zipWith (· * ·) w (hanning w.length)) nfft).map Complex.abs)

/-- Lines 103-118: fold of the noise-estimation loop, accumulating the sum
of the window magnitude spectra (into `np.zeros(n_fft // 2 + 1)`) and the
window count `num_noise_windows`. -/
noncomputable def noiseLoop (noiseRef : List ℝ) (nfft hop : ℕ) : List ℝ × ℕ :=
  (noiseWindowStarts noiseRef.length nfft hop).foldl
    (fun acc i =>
      (List.zipWith (· + ·) acc.1 (windowMagnitude noiseRef nfft i), acc.2 + 1))
    (List.replicate (nfft / 2 + 1) 0, 0)

/-- Lines 123-131: fallback noise spectrum when zero windows were processed —
a single Hann-windowed copy of the whole noise reference, zero-padded to
`n_fft` samples. -/
noncomputable def noiseFallback (noiseRef : List ℝ) (nfft : ℕ) : List ℝ :=
  let w := List.zipWith (· * ·) noiseRef (hanning noiseRef.length)
  let w2 := if w.length < nfft then w ++ List.replicate (nfft - w.length) 0 else w
  (rfft (w2.take nfft) nfft).map Complex.abs

/-- Lines 103-131: the average noise magnitude profile (before the `1e-10`
flooring of line 134): the accumulated sum divided by the window count when
at least one window was processed, the padded-window fallback otherwise. -/
noncomputable def noiseProfileRaw (noiseRef : List ℝ) (nfft hop : ℕ) : List ℝ :=
  let p := noiseLoop noiseRef nfft hop
  if 0 < p.2 then p.1.map (· / (p.2 : ℝ)) else noiseFallback noiseRef nfft

/-- Lines 146-153: the analysis frame at `start_sample = start`:
`audio[start:start+n]`, zero-padded on the right when `start + n` overruns
the buffer. -/
def frameAt (audio : List ℝ) (start n : ℕ) : List ℝ :=
  if start + n > audio.length then
    (audio.drop start) ++ List.replicate (start + n - audio.length) 0
  else (audio.drop start).take n

/-- Lines 189-193, one slice-accumulation: `buf[start:end] += vals[:end-start]`
with `end = min(start + len(vals), len(buf))`. -/
def addInto (buf : List ℝ) (start : ℕ) (vals : List ℝ) : List ℝ :=
  (List.range buf.length).map (fun j =>
    if start ≤ j ∧ j < start + vals.length
    then buf.getD j 0 + vals.getD (j - start) 0 else buf.getD j 0)

/-- Lines 174-200: overlap-add synthesis. Two zero buffers of the input
length accumulate the Hann-rewindowed inverse FFT of every frame spectrum
and the window values themselves; then the sample buffer is divided by the
window-energy buffer floored at `1e-10` and sliced to the input length.
`synthStep` is one iteration of the loop of lines 178-193 (frame index and
spectrum column in `p`): inverse-FFT the column, re-apply the Hann window,
and accumulate samples and window values into the two buffers. -/
noncomputable def synthStep (nfft hop : ℕ) (bufs : List ℝ × List ℝ)
    (p : ℕ × List ℂ) : List ℝ × List ℝ :=
  let start := p.1 * hop
  let fr := irfft p.2 nfft
  let w := hanning fr.length
  (addInto bufs.1 start (List.zipWith (· * ·) fr w), addInto bufs.2 start w)

noncomputable def synthesize (spectra : List (List ℂ)) (nfft hop L : ℕ) : List ℝ :=
  let bufs := spectra.enum.foldl (synthStep nfft hop)
    (List.replicate L 0, List.replicate L 0)
  (List.zipWith (fun a ws => a / max ws epsDiv) bufs.1 bufs.2).take L

/-- Lines 85-202: the body of `denoise_with_fft` after the empty-input check
and the flattening of lines 78-83, on a 1-D sample list. -/
noncomputable def denoiseBody (audio : List ℝ) (sr : ℕ) (nsd : ℚ) (nfft0 : ℕ)
    (hop? : Option ℕ) (alpha beta : ℝ) : List ℝ :=
  let nsl := noiseSampleLength nsd sr audio.length
  let nfft := denoiseAdaptNfft nsl nfft0
  let noiseRef := audio.take nsl
  let hop := hop?.getD (nfft / 4)
  let profile := (noiseProfileRaw noiseRef nfft hop).map floorAtEps
  let numFrames := (((audio.length : ℤ) - nfft).fdiv hop + 1).toNat
  let spectra := (List.range numFrames).map (fun idx =>
    let fr := frameAt audio (idx * hop) nfft
    processFrame profile alpha beta (rfft (List.zipWith (· * ·) fr (hanning fr.length)) nfft))
  synthesize spectra nfft hop audio.length

/-- A `numpy` array as `denoise_with_fft` receives it: 1-D (mono) or 2-D
(frames × channels). -/
inductive NPArray where
  | one (xs : List ℝ)
  | two (rows : List (List ℝ))

/-- Python `len(audio)`: the first dimension. -/
def NPArray.npLen : NPArray → ℕ
  | .one xs => xs.length
  | .two rows => rows.length

/-- `audio.flatten()`: row-major flattening (the identity on a 1-D array). -/
def NPArray.flat : NPArray → List ℝ
  | .one xs => xs
  | .two rows => rows.flatten

/-- Lines 47-202, `denoise_with_fft`: return an empty input unchanged
(line 78-79); otherwise flatten a multi-dimensional input to 1-D
(lines 81-83) and run the spectral-subtraction body. -/
noncomputable def denoise_with_fft (audio : NPArray) (sr : ℕ) (nsd : ℚ)
    (nfft : ℕ) (hop? : Option ℕ) (alpha beta : ℝ) : NPArray :=
  if audio.npLen = 0 then audio
  else .one (denoiseBody audio.flat sr nsd nfft hop? alpha beta)

/-- Modelled from the spec: the "pure analysis/synthesis overlap-add
round-trip of the input through the same Hann window and hop configuration
with gain identically 1 in every bin" (spec §8, identity gain): frame the
signal exactly as lines 145-160 do, take each frame's real FFT unmodified,
and synthesize exactly as lines 174-200 do. -/
noncomputable def overlapAddRoundTrip (audio : List ℝ) (nfft hop : ℕ) : List ℝ :=
  let numFrames := (((audio.length : ℤ) - nfft).fdiv hop + 1).toNat
  let spectra := (List.range numFrames).map (fun idx =>
    let fr := frameAt audio (idx * hop) nfft
    rfft (List.zipWith (· * ·) fr (hanning fr.length)) nfft)
  synthesize spectra nfft hop audio.length

/-- A line of the textual side-channel protocol emitted by `run` (message
payloads are elided: the claims below depend only on the line kind, the
stage tag, and the progress value). -/
inductive Line where
  | progress (stage : String) (value : ℚ)
  | errLine
  | resultSaved
deriving DecidableEq

/-- The failure modes of `run`: the `FileNotFoundError` of lines 246-250,
the `NoiseReductionError` raised directly for short input (line 290) and
re-raised untouched by line 330, and any other exception wrapped into a
`NoiseReductionError` by lines 331-335. -/
inductive RunError where
  | fileNotFound
  | invalidInput
  | wrapped
deriving DecidableEq

/-- The environment a `run` executes against: everything outside the core
that determines its control flow (file-system checks, the shape of the
audio `sf.read` yields, whether `sf.read` / `sf.write` themselves raise).
Sample values are elided: no emitted line depends on them. -/
structure RunEnv where
  fileExists : Bool
  isFile : Bool
  loadOk : Bool
  is2D : Bool
  rows : ℕ
  cols : ℕ
  sampleRate : ℕ
  saveOk : Bool

/-- Lines 39-43: `log_progress` clamps the printed progress value to
`[0, 100]` via `min(100, max(0, progress))`. -/
def clampP (p : ℚ) : ℚ := min 100 (max 0 p)

/-- One `PROGRESS|...` line as printed by `log_progress`. -/
def emitP (stage : String) (p : ℚ) : Line := .progress stage (clampP p)

/-- The two lines printed by the generic exception handler of lines 331-334:
`log_progress("error", 0, ...)` followed by `ERROR|...`. -/
def errorTail : List Line := [emitP "error" 0, .errLine]

/-- Lines 205-335, `run`: the list of protocol lines printed on
stdout/stderr and the outcome, as a function of the environment and the
parameters that steer control flow (`n_fft`, `hop_length`,
`noise_sample_duration`). Mirrors the source order: file validation before
the `try` block; loading / mono conversion / length validation / FFT-size
adaptation; the denoising call (whose exceptions reach the generic
handler, modelled by `denoiseRunsOk`); saving; completion. -/
def runModel (env : RunEnv) (nfft : ℕ) (hop? : Option ℕ) (nsd : ℚ) :
    List Line × Option RunError :=
  if ¬env.fileExists then ([], some .fileNotFound) else
  if ¬env.isFile then ([], some .fileNotFound) else
  let t0 := [emitP "loading" 0]
  if ¬env.loadOk then (t0 ++ errorTail, some .wrapped) else
  let t1 := t0 ++ (if env.is2D ∧ 1 < env.cols then [emitP "loading" 10] else [])
  let L := env.rows
  let t2 := t1 ++ [emitP "loading" 20]
  if L < 100 then (t2, some .invalidInput) else
  let t3 := t2 ++ (if nfft > L then [emitP "loading" 25] else [])
  let nfft' := runAdaptNfft nfft L
  let t4 := t3 ++ [emitP "loading" 30, emitP "processing" 30, emitP "processing" 40]
  if ¬denoiseRunsOk L env.sampleRate nsd nfft' hop? then
    (t4 ++ errorTail, some .wrapped) else
  let t5 := t4 ++ [emitP "processing" 80, emitP "saving" 85, emitP "saving" 90]
  if ¬env.saveOk then (t5 ++ errorTail, some .wrapped) else
  (t5 ++ [emitP "complete" 100, .resultSaved], none)

/-- Whether a line is an `ERROR|...` line. -/
def Line.isErrLine : Line → Bool
  | .progress _ _ => false
  | .errLine => true
  | .resultSaved => false

/-- Number of `ERROR|...` lines in a trace. -/
def countErrorLines (ls : List Line) : ℕ :=
  ls.countP Line.isErrLine

/-- The progress values of a trace, in emission order. -/
def progressValues (ls : List Line) : List ℚ :=
  ls.filterMap (fun l => match l with | .progress _ v => some v | _ => none)

lemma epsDiv_pos : 0 < epsDiv := by
  rw [epsDiv]; positivity

lemma gainAt_ge (alpha beta noiseP frameMag : ℝ) :
    beta ≤ gainAt alpha beta noiseP frameMag := le_max_left _ _

lemma gainAt_le_one (alpha beta noiseP frameMag : ℝ) (halpha : 0 < alpha)
    (hbeta1 : beta ≤ 1) (hnP : epsDiv ≤ noiseP) :
    gainAt alpha beta noiseP frameMag ≤ 1 := by
  apply max_le hbeta1
  have h1 : 0 ≤ alpha * (noiseP / max frameMag epsDiv) := by
    apply mul_nonneg halpha.le
    exact div_nonneg (le_trans epsDiv_pos.le hnP)
      (le_trans epsDiv_pos.le (le_max_right _ _))
  linarith

lemma mem_gains_bounds (alpha beta : ℝ) (halpha : 0 < alpha) (hbeta1 : beta ≤ 1) :
    ∀ (p m : List ℝ), (∀ v ∈ p, epsDiv ≤ v) →
    ∀ g ∈ gains alpha beta p m, beta ≤ g ∧ g ≤ 1 := by
  intro p
  induction p with
  | nil => intro m _ g hg; simp [gains] at hg
  | cons a ps ih =>
    intro m hp g hg
    cases m with
    | nil => simp [gains] at hg
    | cons b ms =>
      rw [gains, List.zipWith_cons_cons] at hg
      rcases List.mem_cons.mp hg with h | h
      · subst h
        exact ⟨gainAt_ge _ _ _ _,
          gainAt_le_one _ _ _ _ halpha hbeta1 (hp a (List.mem_cons_self a ps))⟩
      · exact ih ms (fun v hv => hp v (List.mem_cons_of_mem a hv)) g h

/-- C2: for every frame and frequency bin, under `alpha > 0` and
`0 < beta ≤ 1`, every gain computed by lines 167-168 from the floored noise
profile satisfies `beta ≤ gain ≤ 1`. -/
theorem C2_gain_bounds (alpha beta : ℝ) (rawProfile mags : List ℝ) (g : ℝ)
    (halpha : 0 < alpha) (hbeta : 0 < beta) (hbeta1 : beta ≤ 1)
    (hg : g ∈ gains alpha beta (rawProfile.map floorAtEps) mags) :
    beta ≤ g ∧ g ≤ 1 := by
  refine mem_gains_bounds alpha beta halpha hbeta1 _ mags ?_ g hg
  intro v hv
  rcases List.mem_map.mp hv with ⟨u, _, rfl⟩
  exact le_max_right _ _

/-- Witness for C2 at `alpha = 2`, `beta = 1/100`, a one-bin profile `[0]`
(floored to `1e-10`) and frame magnitude `[1]`. -/
theorem C2_gain_bounds_witness :
    (1 / 100 : ℝ) ≤ gainAt 2 (1 / 100) (floorAtEps 0) 1
      ∧ gainAt 2 (1 / 100) (floorAtEps 0) 1 ≤ 1 :=
  C2_gain_bounds 2 (1 / 100) [0] [1] _ (by norm_num) (by norm_num) (by norm_num)
    (by simp [gains])

lemma nat_log2_eq {n k : ℕ} (h1 : 2 ^ k ≤ n) (h2 : n < 2 ^ (k + 1)) :
    Nat.log2 n = k := by
  rw [Nat.log2_eq_log_two]
  exact Nat.log_eq_of_pow_le_of_lt_pow h1 h2

lemma nsl_500_44100 : noiseSampleLength (1 / 10) 44100 500 = 125 := by
  rw [noiseSampleLength, ratTrunc]
  norm_num

lemma runAdapt_2048_500 : runAdaptNfft 2048 500 = 256 := by
  rw [runAdaptNfft, if_pos (by norm_num), nat_log2_eq (n := 500) (k := 8) (by norm_num) (by norm_num)]
  decide

lemma denoiseAdapt_125_256 : denoiseAdaptNfft 125 256 = 64 := by
  rw [denoiseAdaptNfft, if_pos (by norm_num), nat_log2_eq (n := 125) (k := 6) (by norm_num) (by norm_num)]
  decide

lemma effectiveNfft_500 : effectiveNfft 500 44100 (1 / 10) 2048 = 64 := by
  rw [effectiveNfft, nsl_500_44100, runAdapt_2048_500, denoiseAdapt_125_256]

/-- C3 counterexample: for a run with requested `n_fft = 2048` on a signal of
500 samples (here at sample rate 44100, duration 0.1 s), the `n_fft` actually
used by `denoise_with_fft` for framing, noise estimation, subtraction and
synthesis is 64, not 256: `run` first shrinks 2048 to 256 (the largest power
of two ≤ 500), but the denoiser's own adaptation (lines 89-92) then shrinks
256 to 64, because the noise-sample length `min(4410, 500 // 4) = 125` is
below 256. -/
theorem C3_effective_fft_cex :
    effectiveNfft 500 44100 (1 / 10) 2048 ≠ 256
      ∧ effectiveNfft 500 44100 (1 / 10) 2048 = 64 := by
  rw [effectiveNfft_500]
  exact ⟨by norm_num, rfl⟩

/-- C3 amended: `run` adapts `n_fft = 2048` to 256 (largest power of two
≤ 500) before calling the denoiser; the denoiser then adapts it further to
64 because the noise-sample span (at most 125 samples) is shorter than 256;
no exception is raised. -/
theorem C3_effective_fft_amended :
    runAdaptNfft 2048 500 = 256
      ∧ effectiveNfft 500 44100 (1 / 10) 2048 = 64
      ∧ denoiseRunsOk 500 44100 (1 / 10) (runAdaptNfft 2048 500) none = true := by
  refine ⟨runAdapt_2048_500, effectiveNfft_500, ?_⟩
  rw [runAdapt_2048_500, denoiseRunsOk]
  rw [if_neg (by norm_num)]
  rw [nsl_500_44100]
  rw [if_neg (by norm_num)]
  rw [denoiseAdapt_125_256]
  decide

/-- C10: an input of first-dimension length 0 is returned unchanged by
`denoise_with_fft` (lines 78-79), whatever the other parameters are. -/
theorem C10_empty_input (audio : NPArray) (sr : ℕ) (nsd : ℚ) (nfft : ℕ)
    (hop? : Option ℕ) (alpha beta : ℝ) (h : audio.npLen = 0) :
    denoise_with_fft audio sr nsd nfft hop? alpha beta = audio := by
  simp [denoise_with_fft, h]

/-- Witness for C10 on the empty 1-D array. -/
theorem C10_empty_input_witness :
    denoise_with_fft (NPArray.one []) 44100 (1 / 10) 2048 none 2 (1 / 100)
      = NPArray.one [] :=
  C10_empty_input _ _ _ _ _ _ _ rfl

/-- Modelled from the claim's words: the window start offsets the claim
asserts contribute to the noise profile — every `i` with `0 ≤ i` and
`i + fft_size ≤ refLen`, stepping by `hop` (note `≤`, where the code's
loop bound of line 106 is the strict `i < refLen - fft_size`). -/
def claimWindowStarts (refLen nfft hop : ℕ) : List ℕ :=
  pyRangeNat ((refLen : ℤ) - nfft + 1) hop

/-- C4 counterexample: over a 64-sample noise reference with
`fft_size = 64`, `hop = 16`, the claim's window set is `[0]` (the window at
offset 0 fits: `0 + 64 ≤ 64`), so per the claim that window contributes and
the sum is divided by 1; but the code's loop `range(0, 64 - 64, 16)` visits
no window at all (`num_noise_windows = 0`), and the estimator falls through
to the single padded-window fallback of lines 123-131. -/
theorem C4_window_set_cex :
    claimWindowStarts 64 64 16 = [0]
      ∧ noiseWindowStarts 64 64 16 = []
      ∧ (noiseLoop (List.replicate 64 (0 : ℝ)) 64 16).2 = 0 := by
  refine ⟨by decide, by decide, ?_⟩
  simp [noiseLoop, noiseWindowStarts, pyRangeNat]

lemma foldl_pair_count {α : Type*} (f : List ℝ → α → List ℝ) :
    ∀ (l : List α) (acc : List ℝ) (n : ℕ),
    l.foldl (fun p a => (f p.1 a, p.2 + 1)) (acc, n) = (l.foldl f acc, n + l.length) := by
  intro l
  induction l with
  | nil => simp
  | cons a t ih =>
    intro acc n
    rw [List.foldl_cons, List.foldl_cons, ih]
    simp
    omega

lemma foldl_zipAdd_length {α : Type*} (g : α → List ℝ) :
    ∀ (l : List α) (acc : List ℝ), (∀ a ∈ l, acc.length ≤ (g a).length) →
    (l.foldl (fun s a => List.zipWith (· + ·) s (g a)) acc).length = acc.length := by
  intro l
  induction l with
  | nil => simp
  | cons a t ih =>
    intro acc h
    rw [List.foldl_cons]
    have hlen : (List.zipWith (· + ·) acc (g a)).length = acc.length := by
      rw [List.length_zipWith]
      exact min_eq_left (h a (List.mem_cons_self a t))
    rw [ih _ (by intro b hb; rw [hlen]; exact h b (List.mem_cons_of_mem a hb)), hlen]

lemma foldl_zipAdd_getD {α : Type*} (g : α → List ℝ) :
    ∀ (l : List α) (acc : List ℝ) (k : ℕ), k < acc.length →
    (∀ a ∈ l, acc.length ≤ (g a).length) →
    (l.foldl (fun s a => List.zipWith (· + ·) s (g a)) acc).getD k 0
      = acc.getD k 0 + (l.map (fun a => (g a).getD k 0)).sum := by
  intro l
  induction l with
  | nil => simp
  | cons a t ih =>
    intro acc k hk h
    rw [List.foldl_cons, List.map_cons, List.sum_cons]
    have hga : acc.length ≤ (g a).length := h a (List.mem_cons_self a t)
    have hlen : (List.zipWith (· + ·) acc (g a)).length = acc.length := by
      rw [List.length_zipWith]
      exact min_eq_left hga
    rw [ih _ k (by rw [hlen]; exact hk)
        (by intro b hb; rw [hlen]; exact h b (List.mem_cons_of_mem a hb))]
    have hz : (List.zipWith (· + ·) acc (g a)).getD k 0 = acc.getD k 0 + (g a).getD k 0 := by
      rw [List.getD_eq_getElem _ _ (by rw [hlen]; exact hk), List.getElem_zipWith,
        List.getD_eq_getElem _ _ hk, List.getD_eq_getElem _ _ (lt_of_lt_of_le hk hga)]
    rw [hz]
    ring

lemma rfft_length (x : List ℝ) (n : ℕ) : (rfft x n).length = n / 2 + 1 := by
  rw [rfft, List.length_map, List.length_range]

lemma windowMagnitude_length (noiseRef : List ℝ) (nfft i : ℕ) :
    (windowMagnitude noiseRef nfft i).length = nfft / 2 + 1 := by
  simp only [windowMagnitude, List.length_map, rfft_length]

lemma noiseLoop_eq_pair (noiseRef : List ℝ) (nfft hop : ℕ) :
    noiseLoop noiseRef nfft hop
      = ((noiseWindowStarts noiseRef.length nfft hop).foldl
          (fun s i => List.zipWith (· + ·) s (windowMagnitude noiseRef nfft i))
          (List.replicate (nfft / 2 + 1) 0),
         (noiseWindowStarts noiseRef.length nfft hop).length) := by
  rw [noiseLoop, foldl_pair_count (fun s i => List.zipWith (· + ·) s (windowMagnitude noiseRef nfft i))]
  simp

/-- Modelled from the amended claim: the profile as the per-bin average of
the magnitude spectra of the windows at the offsets the loop visits
(`i + fft_size < refLen`, stepping by `hop`). -/
noncomputable def averageProfile (noiseRef : List ℝ) (nfft hop : ℕ) : List ℝ :=
  (List.range (nfft / 2 + 1)).map (fun k =>
    ((noiseWindowStarts noiseRef.length nfft hop).map
        (fun i => (windowMagnitude noiseRef nfft i).getD k 0)).sum
      / ((noiseWindowStarts noiseRef.length nfft hop).length : ℝ))

/-- C4 amended: whenever at least one window start `i` satisfies the code's
strict bound `i + fft_size < refLen` (stepping by `hop`), the computed raw
noise profile is exactly the per-bin average of those windows' Hann-windowed
real-FFT magnitude spectra. -/
theorem C4_profile_average (noiseRef : List ℝ) (nfft hop : ℕ)
    (h : 0 < (noiseWindowStarts noiseRef.length nfft hop).length) :
    noiseProfileRaw noiseRef nfft hop = averageProfile noiseRef nfft hop := by
  have hwm : ∀ i ∈ noiseWindowStarts noiseRef.length nfft hop,
      (List.replicate (nfft / 2 + 1) (0 : ℝ)).length ≤ (windowMagnitude noiseRef nfft i).length := by
    intro i _
    rw [windowMagnitude_length, List.length_replicate]
  have hfold_len := foldl_zipAdd_length (windowMagnitude noiseRef nfft)
    (noiseWindowStarts noiseRef.length nfft hop) (List.replicate (nfft / 2 + 1) 0) hwm
  rw [noiseProfileRaw, noiseLoop_eq_pair, averageProfile]
  rw [if_pos (by simpa using h)]
  apply List.ext_getElem
  · simp [hfold_len]
  · intro k h1 h2
    have hk : k < nfft / 2 + 1 := by
      simpa [hfold_len] using h1
    rw [List.getElem_map, List.getElem_map, List.getElem_range]
    rw [← List.getD_eq_getElem _ 0 (by simpa [hfold_len] using hk)]
    rw [foldl_zipAdd_getD (windowMagnitude noiseRef nfft) _ _ k (by simpa using hk) hwm]
    rw [List.getD_eq_getElem _ _ (by simpa using hk), List.getElem_replicate]
    rw [zero_add]

/-- Witness for C4 amended: an 80-sample reference with `fft_size = 64`,
`hop = 16`, where exactly one window (offset 0) qualifies. -/
theorem C4_profile_average_witness :
    noiseProfileRaw (List.replicate 80 (0 : ℝ)) 64 16
      = averageProfile (List.replicate 80 (0 : ℝ)) 64 16 :=
  C4_profile_average _ _ _ (by simp only [List.length_replicate]; decide)

lemma addInto_length (buf : List ℝ) (start : ℕ) (vals : List ℝ) :
    (addInto buf start vals).length = buf.length := by
  rw [addInto, List.length_map, List.length_range]

lemma foldl_pres {α β : Type*} (P : β → Prop) (f : β → α → β)
    (hf : ∀ b a, P b → P (f b a)) :
    ∀ (l : List α) (b : β), P b → P (l.foldl f b) := by
  intro l
  induction l with
  | nil => intro b hb; simpa using hb
  | cons a t ih => intro b hb; rw [List.foldl_cons]; exact ih _ (hf b a hb)

lemma synthesize_length (spectra : List (List ℂ)) (nfft hop L : ℕ) :
    (synthesize spectra nfft hop L).length = L := by
  have h := foldl_pres (fun b : List ℝ × List ℝ => b.1.length = L ∧ b.2.length = L)
    (synthStep nfft hop)
    (fun b p hb => ⟨by rw [synthStep, addInto_length]; exact hb.1,
                    by rw [synthStep, addInto_length]; exact hb.2⟩)
    spectra.enum (List.replicate L 0, List.replicate L 0)
    ⟨List.length_replicate L 0, List.length_replicate L 0⟩
  rw [synthesize, List.length_take, List.length_zipWith, h.1, h.2]
  omega

lemma denoiseBody_length (audio : List ℝ) (sr : ℕ) (nsd : ℚ) (nfft0 : ℕ)
    (hop? : Option ℕ) (alpha beta : ℝ) :
    (denoiseBody audio sr nsd nfft0 hop? alpha beta).length = audio.length := by
  rw [denoiseBody]
  exact synthesize_length _ _ _ _

/-- C1: for a mono (1-D) input of length at least 1, under parameters for
which `denoise_with_fft` raises no exception (`denoiseRunsOk`), the returned
array has exactly the input's length: the output accumulator is created with
`np.zeros(len(audio))` (lines 175-176), every overlap-add write is clipped
to it (line 189), and the final slice `[:len(audio)]` (line 200) keeps the
length unchanged. -/
theorem C1_length_preservation (xs : List ℝ) (sr : ℕ) (nsd : ℚ) (nfft : ℕ)
    (hop? : Option ℕ) (alpha beta : ℝ) (h1 : 1 ≤ xs.length)
    (h2 : denoiseRunsOk xs.length sr nsd nfft hop? = true) :
    (denoise_with_fft (NPArray.one xs) sr nsd nfft hop? alpha beta).npLen
      = xs.length := by
  rw [denoise_with_fft]
  rw [if_neg (by simp only [NPArray.npLen]; omega)]
  show (denoiseBody xs sr nsd nfft hop? alpha beta).length = xs.length
  exact denoiseBody_length _ _ _ _ _ _ _

/-- Witness for C1 on 100 zero samples at sample rate 1000 with the default
parameters. -/
theorem C1_length_preservation_witness :
    (denoise_with_fft (NPArray.one (List.replicate 100 (0 : ℝ))) 1000 (1 / 10)
        2048 none 2 (1 / 100)).npLen = (List.replicate 100 (0 : ℝ)).length :=
  C1_length_preservation _ _ _ _ _ _ _ (by norm_num)
    (by simp only [List.length_replicate]
        rw [denoiseRunsOk, if_neg (by norm_num)]
        have hns : noiseSampleLength (1 / 10) 1000 100 = 25 := by
          rw [noiseSampleLength, ratTrunc]; norm_num
        rw [hns, if_neg (by norm_num)]
        rw [denoiseAdaptNfft, if_pos (by norm_num),
          nat_log2_eq (n := 25) (k := 4) (by norm_num) (by norm_num)]
        decide)

lemma sum_map_length_const (rows : List (List ℝ)) (c : ℕ)
    (h : ∀ r ∈ rows, r.length = c) :
    (rows.map List.length).sum = rows.length * c := by
  induction rows with
  | nil => simp
  | cons r t ih =>
    rw [List.map_cons, List.sum_cons, h r (List.mem_cons_self r t),
      ih (fun s hs => h s (List.mem_cons_of_mem r hs))]
    rw [List.length_cons]
    ring

/-- C9: `denoise_with_fft` called directly on a 2-D (multi-channel) array
does not average the channels: lines 81-83 `flatten()` the array row-major,
so with `rows` frames of `c ≥ 2` channels each, the returned array has
`rows * c` entries — the total element count, not the per-channel frame
count `rows`. -/
theorem C9_flatten_length (rows : List (List ℝ)) (c : ℕ) (sr : ℕ) (nsd : ℚ)
    (nfft : ℕ) (hop? : Option ℕ) (alpha beta : ℝ)
    (h1 : 1 ≤ rows.length) (h2 : 2 ≤ c) (hc : ∀ r ∈ rows, r.length = c) :
    (denoise_with_fft (NPArray.two rows) sr nsd nfft hop? alpha beta).npLen
        = rows.length * c
      ∧ rows.length * c ≠ rows.length := by
  constructor
  · rw [denoise_with_fft]
    rw [if_neg (by simp only [NPArray.npLen]; omega)]
    show (denoiseBody rows.flatten sr nsd nfft hop? alpha beta).length = _
    rw [denoiseBody_length, List.length_flatten, sum_map_length_const rows c hc]
  · have : rows.length * 2 ≤ rows.length * c := Nat.mul_le_mul_left _ h2
    omega

/-- Witness for C9 on a 2-frame, 2-channel array of zeros. -/
theorem C9_flatten_length_witness :
    (denoise_with_fft (NPArray.two [[0, 0], [0, 0]]) 44100 (1 / 10) 2048 none
        2 (1 / 100)).npLen = 2 * 2 ∧ 2 * 2 ≠ 2 :=
  C9_flatten_length [[0, 0], [0, 0]] 2 _ _ _ _ _ _ (by norm_num) (by norm_num)
    (by intro r hr
        rcases List.mem_cons.mp hr with h | h
        · rw [h]; rfl
        · rw [List.mem_singleton.mp h]; rfl)

lemma subtractBin_mul (z : ℂ) (g : ℝ) : subtractBin z g = (g : ℂ) * z := by
  rw [subtractBin]
  push_cast
  calc ((Complex.abs z : ℂ) * (g : ℂ)) * Complex.exp ((z.arg : ℂ) * Complex.I)
      = (g : ℂ) * ((Complex.abs z : ℂ) * Complex.exp ((z.arg : ℂ) * Complex.I)) := by ring
    _ = (g : ℂ) * z := by rw [Complex.abs_mul_exp_arg_mul_I]

lemma zipWith_getD {α β γ : Type*} (f : α → β → γ) (as : List α) (bs : List β)
    (k : ℕ) (da : α) (db : β) (dc : γ) (h : k < (List.zipWith f as bs).length) :
    (List.zipWith f as bs).getD k dc = f (as.getD k da) (bs.getD k db) := by
  have hk1 : k < as.length := by rw [List.length_zipWith] at h; omega
  have hk2 : k < bs.length := by rw [List.length_zipWith] at h; omega
  rw [List.getD_eq_getElem _ _ h, List.getD_eq_getElem _ _ hk1,
    List.getD_eq_getElem _ _ hk2, List.getElem_zipWith]

lemma map_getD {α β : Type*} (f : α → β) (l : List α) (k : ℕ) (da : α) (db : β)
    (h : k < l.length) : (l.map f).getD k db = f (l.getD k da) := by
  rw [List.getD_eq_getElem _ _ (by simpa using h), List.getElem_map,
    List.getD_eq_getElem _ _ h]

/-- C7: for every frame and frequency bin `k` (with a positive spectral
floor `beta`), the denoised spectrum column computed by lines 160-172 has,
at bin `k`, magnitude equal to the input frame magnitude times the computed
gain, and phase exactly equal to the input bin's phase. -/
theorem C7_magnitude_phase (profile : List ℝ) (alpha beta : ℝ) (X : List ℂ)
    (k : ℕ) (hbeta : 0 < beta)
    (hk : k < (processFrame profile alpha beta X).length) :
    Complex.abs ((processFrame profile alpha beta X).getD k 0)
        = Complex.abs (X.getD k 0)
          * (gains alpha beta profile (X.map Complex.abs)).getD k 0
      ∧ ((processFrame profile alpha beta X).getD k 0).arg = (X.getD k 0).arg := by
  have hk' : k < (List.zipWith subtractBin X
      (gains alpha beta profile (X.map Complex.abs))).length := by
    rw [processFrame] at hk; exact hk
  have hkX : k < X.length := by rw [List.length_zipWith] at hk'; omega
  have hkg : k < (gains alpha beta profile (X.map Complex.abs)).length := by
    rw [List.length_zipWith] at hk'; omega
  have hkp : k < profile.length := by
    rw [gains, List.length_zipWith, List.length_map] at hkg; omega
  have hgain : (gains alpha beta profile (X.map Complex.abs)).getD k 0
      = gainAt alpha beta (profile.getD k 0) (Complex.abs (X.getD k 0)) := by
    rw [gains, zipWith_getD (gainAt alpha beta) profile (X.map Complex.abs) k 0 0 0
      (by rw [gains] at hkg; exact hkg)]
    rw [map_getD Complex.abs X k 0 0 hkX]
  have hgpos : 0 < (gains alpha beta profile (X.map Complex.abs)).getD k 0 := by
    rw [hgain]
    exact lt_of_lt_of_le hbeta (gainAt_ge _ _ _ _)
  have hpf : (processFrame profile alpha beta X).getD k 0
      = subtractBin (X.getD k 0)
          ((gains alpha beta profile (X.map Complex.abs)).getD k 0) := by
    rw [processFrame]
    exact zipWith_getD subtractBin X _ k 0 0 0 hk'
  rw [hpf, subtractBin_mul]
  constructor
  · rw [map_mul, Complex.abs_ofReal, abs_of_pos hgpos]
    ring
  · exact Complex.arg_real_mul _ hgpos

/-- Witness for C7 at the single bin of a one-bin frame `[i]` with profile
`[0]`, `alpha = 2`, `beta = 1`. -/
theorem C7_magnitude_phase_witness :
    Complex.abs ((processFrame [0] 2 1 [Complex.I]).getD 0 0)
        = Complex.abs (([Complex.I] : List ℂ).getD 0 0)
          * (gains 2 1 [0] (([Complex.I] : List ℂ).map Complex.abs)).getD 0 0
      ∧ ((processFrame [0] 2 1 [Complex.I]).getD 0 0).arg
          = (([Complex.I] : List ℂ).getD 0 0).arg :=
  C7_magnitude_phase [0] 2 1 [Complex.I] 0 (by norm_num)
    (by simp [processFrame, gains])

lemma gainAt_zero_alpha (beta noiseP frameMag : ℝ) (hb : beta ≤ 1) :
    gainAt 0 beta noiseP frameMag = 1 := by
  rw [gainAt, zero_mul, sub_zero]
  exact max_eq_right hb

lemma processFrame_alpha_zero (beta : ℝ) (hb : beta ≤ 1) :
    ∀ (X : List ℂ) (p : List ℝ), X.length ≤ p.length →
    processFrame p 0 beta X = X := by
  intro X
  induction X with
  | nil => intro p _; rw [processFrame]; simp [gains]
  | cons x xs ih =>
    intro p hlen
    cases p with
    | nil => simp at hlen
    | cons a ps =>
      have htail := ih ps (by simpa using hlen)
      simp only [processFrame, gains, List.map_cons, List.zipWith_cons_cons,
        List.cons.injEq] at htail ⊢
      refine ⟨?_, htail⟩
      rw [gainAt_zero_alpha _ _ _ hb, subtractBin_mul]
      simp

lemma noiseLoop_fst (noiseRef : List ℝ) (nfft hop : ℕ) :
    (noiseLoop noiseRef nfft hop).1
      = (noiseWindowStarts noiseRef.length nfft hop).foldl
          (fun s i => List.zipWith (· + ·) s (windowMagnitude noiseRef nfft i))
          (List.replicate (nfft / 2 + 1) 0) := by
  rw [noiseLoop_eq_pair]

lemma noiseProfileRaw_length (noiseRef : List ℝ) (nfft hop : ℕ) :
    (noiseProfileRaw noiseRef nfft hop).length = nfft / 2 + 1 := by
  rw [noiseProfileRaw]
  split
  · rw [List.length_map, noiseLoop_fst,
      foldl_zipAdd_length (windowMagnitude noiseRef nfft) _ _
        (fun i _ => by rw [windowMagnitude_length, List.length_replicate]),
      List.length_replicate]
  · simp only [noiseFallback, List.length_map, rfft_length]

lemma denoiseBody_alpha_zero (audio : List ℝ) (sr : ℕ) (nsd : ℚ) (nfft0 : ℕ)
    (hop? : Option ℕ) (beta : ℝ) (hb : beta ≤ 1) :
    denoiseBody audio sr nsd nfft0 hop? 0 beta
      = overlapAddRoundTrip audio
          (denoiseAdaptNfft (noiseSampleLength nsd sr audio.length) nfft0)
          (hop?.getD (denoiseAdaptNfft (noiseSampleLength nsd sr audio.length) nfft0 / 4)) := by
  simp only [denoiseBody, overlapAddRoundTrip]
  congr 1
  apply List.map_congr_left
  intro idx _
  apply processFrame_alpha_zero beta hb
  rw [rfft_length, List.length_map, noiseProfileRaw_length]

/-- C6: with `alpha = 0` (and a spectral floor `beta ≤ 1`, per the spec's
`GainParameters` invariant), the output of the denoiser body equals — per
sample, within `1e-5` (in fact exactly) — the pure overlap-add round-trip of
the input through the same effective Hann window and hop configuration with
gain identically 1. -/
theorem C6_identity_gain (audio : List ℝ) (sr : ℕ) (nsd : ℚ) (nfft : ℕ)
    (hop? : Option ℕ) (beta : ℝ) (hb : beta ≤ 1) (i : ℕ) :
    |(denoiseBody audio sr nsd nfft hop? 0 beta).getD i 0
      - (overlapAddRoundTrip audio
          (denoiseAdaptNfft (noiseSampleLength nsd sr audio.length) nfft)
          (hop?.getD (denoiseAdaptNfft (noiseSampleLength nsd sr audio.length) nfft / 4))).getD i 0|
      ≤ 1 / 10 ^ 5 := by
  rw [denoiseBody_alpha_zero audio sr nsd nfft hop? beta hb, sub_self, abs_zero]
  norm_num

/-- Witness for C6 on the one-sample signal `[0]`, `beta = 1`, sample 0. -/
theorem C6_identity_gain_witness :
    |(denoiseBody [0] 8 (1 / 2) 64 none 0 1).getD 0 0
      - (overlapAddRoundTrip [0]
          (denoiseAdaptNfft (noiseSampleLength (1 / 2) 8 ([0] : List ℝ).length) 64)
          ((none : Option ℕ).getD
            (denoiseAdaptNfft (noiseSampleLength (1 / 2) 8 ([0] : List ℝ).length) 64 / 4))).getD 0 0|
      ≤ 1 / 10 ^ 5 :=
  C6_identity_gain [0] 8 (1 / 2) 64 none 1 le_rfl 0

/-- An environment in which `run` fails on short input: the file exists and
loads fine, but the loaded mono audio has only 50 samples. -/
def shortInputEnv : RunEnv := ⟨true, true, true, false, 50, 1, 44100, true⟩

/-- An environment in which `run` succeeds: one second of mono audio at
44100 Hz, all collaborators succeed. -/
def okEnv : RunEnv := ⟨true, true, true, false, 44100, 1, 44100, true⟩

/-- C5 counterexample: the short-input failure (50 samples < 100) raises the
`NoiseReductionError` of line 290, which the handler of lines 329-330
re-raises untouched — `run` propagates it having emitted zero `ERROR|...`
lines (the claim asserts exactly one). -/
theorem C5_error_line_cex :
    (runModel shortInputEnv 2048 none (1 / 10)).2 = some RunError.invalidInput
      ∧ countErrorLines (runModel shortInputEnv 2048 none (1 / 10)).1 = 0 := by
  refine ⟨by decide, by decide⟩

/-- C5 amended: a failing `run` emits exactly one `ERROR|...` line when the
failure reaches the generic handler of lines 331-335 (load, denoise or save
exceptions, wrapped into `NoiseReductionError`), and none at all when the
failure is the pre-`try` `FileNotFoundError` (lines 246-250) or the
directly-raised short-input `NoiseReductionError` (lines 290, 329-330). -/
theorem C5_error_lines_amended (env : RunEnv) (nfft : ℕ) (hop? : Option ℕ)
    (nsd : ℚ) (e : RunError)
    (h : (runModel env nfft hop? nsd).2 = some e) :
    countErrorLines (runModel env nfft hop? nsd).1
      = if e = RunError.wrapped then 1 else 0 := by
  simp only [runModel] at h ⊢
  split_ifs at h ⊢ <;>
    simp_all [countErrorLines, Line.isErrLine, errorTail, emitP,
      List.countP_append, List.countP_cons]

/-- Witness for C5 amended at the short-input environment. -/
theorem C5_error_lines_amended_witness :
    countErrorLines (runModel shortInputEnv 2048 none (1 / 10)).1
      = if RunError.invalidInput = RunError.wrapped then 1 else 0 :=
  C5_error_lines_amended shortInputEnv 2048 none (1 / 10) RunError.invalidInput
    (by decide)

/-- C8: across one successful `run`, the progress values on the emitted
`PROGRESS|...` lines are non-decreasing, all lie in `[0, 100]`, and the
final one is exactly 100. -/
theorem C8_progress_monotone (env : RunEnv) (nfft : ℕ) (hop? : Option ℕ)
    (nsd : ℚ) (h : (runModel env nfft hop? nsd).2 = none) :
    List.Chain' (· ≤ ·) (progressValues (runModel env nfft hop? nsd).1)
      ∧ (∀ v ∈ progressValues (runModel env nfft hop? nsd).1, 0 ≤ v ∧ v ≤ 100)
      ∧ (progressValues (runModel env nfft hop? nsd).1).getLast? = some 100 := by
  simp only [runModel] at h ⊢
  split_ifs at h ⊢
  all_goals first
    | exact Option.noConfusion h
    | (refine ⟨?_, ?_, ?_⟩ <;>
        norm_num [progressValues, emitP, clampP, List.filterMap])

lemma nsl_44100 : noiseSampleLength (1 / 10) 44100 44100 = 4410 := by
  rw [noiseSampleLength, ratTrunc]
  norm_num
  decide

lemma runsOk_okEnv : denoiseRunsOk 44100 44100 (1 / 10) 2048 none = true := by
  simp only [denoiseRunsOk, nsl_44100]
  norm_num [denoiseAdaptNfft]
  decide

/-- Witness for C8 at the all-good environment. -/
theorem C8_progress_monotone_witness :
    List.Chain' (· ≤ ·) (progressValues (runModel okEnv 2048 none (1 / 10)).1)
      ∧ (∀ v ∈ progressValues (runModel okEnv 2048 none (1 / 10)).1,
          0 ≤ v ∧ v ≤ 100)
      ∧ (progressValues (runModel okEnv 2048 none (1 / 10)).1).getLast?
          = some 100 :=
  C8_progress_monotone okEnv 2048 none (1 / 10)
    (by
      have hra : runAdaptNfft 2048 44100 = 2048 := by
        rw [runAdaptNfft, if_neg (by norm_num)]
      simp only [runModel, okEnv, hra, runsOk_okEnv]
      norm_num)
